import Mathlib

/-!
Shallow embedding of the product-catalog backend (`backend/crud.py`,
`backend/models.py`, `backend/tasks.py`, `backend/main.py`,
`backend/webhook.py`) used to check the natural-language specification
against the code.

Conventions of the embedding:
* The product table is a `List Product` in insertion order; the storage
  engine's unique index `uq_sku_lower` (models.py) is modelled by making
  the write operations fail (return `Except.error`) exactly when the
  index would raise, in which case the transaction rolls back and the
  state is unchanged.
* Python `str.lower` is `pyLower` (ASCII case folding on the character
  list), Python `str.strip` is `pyStrip`; all inputs of interest are
  ASCII, where these agree with Python's Unicode versions.
* Python `float` values are modelled as `Rat`.  The progress formula
  `int((processed / total) * 100)` is modelled as `100 * processed / total`
  in natural-number division, its exact rational value; binary floating
  point rounding is immaterial to every property checked here.
* The in-memory `job_status[job_id]` dictionary is modelled by recording
  every value it ever holds, in order, in a `trace` list.
-/

namespace Backend

/-- Python truthiness of an optional string cell (`None` and `""` are falsy). -/
def truthy : Option String → Bool
  | none => false
  | some s => !s.isEmpty

/-- Python `str.strip` on a character list: drop whitespace at both ends. -/
def pyStripChars (cs : List Char) : List Char :=
  ((cs.dropWhile Char.isWhitespace).reverse.dropWhile Char.isWhitespace).reverse

/-- Python `str.strip`. -/
def pyStrip (s : String) : String := ⟨pyStripChars s.data⟩

/-- Python `str.lower` (ASCII case folding; the skus of interest are
ASCII). -/
def pyLower (s : String) : String := ⟨s.data.map Char.toLower⟩

/-- Digits of a numeral folded into a natural number. -/
def digitsVal (cs : List Char) : Nat :=
  cs.foldl (fun a c => 10 * a + (c.toNat - 48)) 0

/-- Core of `float(...)` after stripping and sign handling: `digit* [. digit*]`
with at least one digit. -/
def pyFloatCore (cs : List Char) : Option Rat :=
  let intPart := cs.takeWhile Char.isDigit
  let rest := cs.dropWhile Char.isDigit
  match rest with
  | [] => if intPart.isEmpty then none else some (digitsVal intPart : Rat)
  | '.' :: frac =>
      if frac.all Char.isDigit && !(intPart.isEmpty && frac.isEmpty) then
        some ((digitsVal intPart : Rat) + (digitsVal frac : Rat) / ((10 : Rat) ^ frac.length))
      else none
  | _ => none

/-- Python's builtin `float(str)` as used by the importer on price cells:
strip whitespace, optional sign, plain decimal numeral.  (Python also
accepts exponent and `inf`/`nan` spellings, which no checked property
exercises; every string holding a character outside Python's float
alphabet is rejected here exactly as `float()` rejects it.) -/
def pyFloat (s : String) : Option Rat :=
  match pyStripChars s.data with
  | [] => none
  | '+' :: cs => pyFloatCore cs
  | '-' :: cs => (pyFloatCore cs).map (fun q => -q)
  | cs => pyFloatCore cs

/-- Characters that can appear in any string accepted by Python `float`
(digits, sign, point, underscore, whitespace, and the letters of
`e`/`inf`/`infinity`/`nan` in both cases).  A string holding any other
character (a currency symbol, a letter like `U`) always raises. -/
def floatAlphabet (c : Char) : Bool :=
  c.isDigit || c = '.' || c = '+' || c = '-' || c = '_' || c.isWhitespace ||
  c = 'e' || c = 'E' || c = 'i' || c = 'I' || c = 'n' || c = 'N' ||
  c = 'f' || c = 'F' || c = 't' || c = 'T' || c = 'y' || c = 'Y' ||
  c = 'a' || c = 'A'

/-- `schemas.ProductCreate`: payload of a product write.  `active`
defaults to `True` in the schema; `none` models an explicit null. -/
structure ProductCreate where
  sku : String
  name : Option String
  description : Option String
  price : Option Rat
  active : Option Bool
deriving DecidableEq, Repr

/-- `models.Product`: one stored row of the `products` table (the columns
the checked properties touch).  `active` is nullable in storage; every
insert path writes `some _`. -/
structure Product where
  sku : String
  sku_lower : String
  name : Option String
  description : Option String
  price : Option Rat
  active : Option Bool
deriving DecidableEq, Repr

/-- The `products` table in insertion order. -/
abbrev DB := List Product

/-- The `sku_lower` column of every stored row, in order. -/
def keys (db : DB) : List String := db.map (·.sku_lower)

/-- Row-level effect of `crud.upsert_product`'s DO UPDATE branch on the
conflicting row: overwrite `name`, `description`, `price`, `active` with
the excluded (incoming) values; `sku` and `sku_lower` stand. -/
def upsertApply (p : ProductCreate) (r : Product) : Product :=
  if r.sku_lower == pyLower p.sku then
    { r with name := p.name, description := p.description,
             price := p.price, active := some (p.active.getD true) }
  else r

/-- `crud.upsert_product`: INSERT .. ON CONFLICT (sku_lower) DO UPDATE.
On conflict the existing row keeps its `sku` (and `sku_lower`) and takes
the incoming `name`, `description`, `price`, `active`; otherwise a new
row is appended.  `active` follows `product.active if product.active is
not None else True`. -/
def upsert_product (db : DB) (p : ProductCreate) : DB :=
  let kl := pyLower p.sku
  if db.any (fun r => r.sku_lower == kl) then
    db.map (upsertApply p)
  else
    db ++ [⟨p.sku, kl, p.name, p.description, p.price,
            some (p.active.getD true)⟩]

/-- `main.create_product` (POST /products): plain INSERT of a new row.
When another row already holds the same `sku_lower`, the commit violates
the unique index `uq_sku_lower`, the transaction rolls back (state
unchanged) and the request fails with a server error. -/
def create_product (db : DB) (p : ProductCreate) : Except Nat DB :=
  let kl := pyLower p.sku
  if db.any (fun r => r.sku_lower == kl) then
    .error 500
  else
    .ok (db ++ [⟨p.sku, kl, p.name, p.description, p.price,
                 some (p.active.getD true)⟩])

/-- `schemas.ProductIn`: PUT payload.  `sku`, `name`, `description`,
`price` are required (nullable) fields, so `exclude_unset` always keeps
them; `active` has a default, so `none` models "field omitted". -/
structure ProductIn where
  sku : String
  name : Option String
  description : Option String
  price : Option Rat
  active : Option (Option Bool)
deriving DecidableEq, Repr

/-- Field application of `update_product`'s `setattr` loop to the found
row: every provided field overwrites, `sku_lower` is recomputed from the
new `sku`. -/
def applyIn (r : Product) (p : ProductIn) : Product :=
  { r with sku := p.sku, sku_lower := pyLower p.sku, name := p.name,
           description := p.description, price := p.price,
           active := p.active.getD r.active }

/-- `db.query(Product).filter(Product.sku == sku).first()` followed by the
field updates: replace the first row whose stored `sku` equals the path
parameter exactly; `none` when no row matches. -/
def updateFirst : DB → String → ProductIn → Option DB
  | [], _, _ => none
  | r :: rest, sku, p =>
    if r.sku = sku then some (applyIn r p :: rest)
    else (updateFirst rest sku p).map (r :: ·)

/-- `main.update_product` (PUT /products/\x7bsku\x7d): 404 when no row has
exactly the requested `sku`; otherwise apply the update and commit, which
fails against `uq_sku_lower` (rollback, state unchanged) when the updated
row's new `sku_lower` collides with another row. -/
def update_product (db : DB) (sku : String) (p : ProductIn) : Except Nat DB :=
  match updateFirst db sku p with
  | none => .error 404
  | some db' =>
    if 2 ≤ db'.countP (fun r => r.sku_lower == pyLower p.sku) then .error 500
    else .ok db'

/-- `main.delete_product_by_sku` (DELETE /products/\x7bsku\x7d): 404 when no
row has exactly the requested `sku`; otherwise delete the first match. -/
def delete_product_by_sku (db : DB) (sku : String) : Except Nat DB :=
  match db.findIdx? (fun r => r.sku == sku) with
  | none => .error 404
  | some i => .ok (db.eraseIdx i)

/-! ### CSV model and the import pipeline (`tasks.import_csv`) -/

/-- One physical line of the uploaded file after the header: either a
blank line (which `csv.reader` skips, yielding no row) or a comma-split
record of field strings.  Quoted multi-line fields are not modelled; no
checked property uses them. -/
inductive CsvLine
  | blank
  | row (fields : List String)
deriving DecidableEq, Repr

/-- An uploaded CSV file: the header line's column names plus the
remaining physical lines.  `total` in `import_csv` is the file's line
count minus one, i.e. `lines.length`. -/
structure CsvFile where
  header : List String
  lines : List CsvLine
deriving DecidableEq, Repr

/-- Index of the last occurrence of column `k` in the header (the
occurrence that survives `dict(zip(fieldnames, row))`). -/
def lastIdxOf (header : List String) (k : String) : Option Nat :=
  (List.range header.length).foldl
    (fun acc i => if header.get? i = some k then some i else acc) none

/-- `row.get(k)` on a `csv.DictReader` row: the field at `k`'s header
position, `None` (`restval`) when the line has fewer fields, `None` when
`k` is not a column name. -/
def rowGet (header fields : List String) (k : String) : Option String :=
  match lastIdxOf header k with
  | none => none
  | some i => fields.get? i

/-- Header names with later duplicates dropped (the key set of the
`DictReader` row dictionary). -/
def dedupFirstAux : List String → List String → List String
  | [], _ => []
  | k :: ks, seen =>
    if k ∈ seen then dedupFirstAux ks seen
    else k :: dedupFirstAux ks (k :: seen)

/-- Key list of a `DictReader` row dictionary. -/
def dedupFirst (l : List String) : List String := dedupFirstAux l []

/-- `row.values()`: one value per column name. -/
def rowValues (header fields : List String) : List (Option String) :=
  (dedupFirst header).map (rowGet header fields)

/-- `sku = row.get("sku") or row.get("SKU")`: Python `or` keeps the first
operand when truthy, else yields the second. -/
def skuCell (header fields : List String) : Option String :=
  if truthy (rowGet header fields "sku") then rowGet header fields "sku"
  else rowGet header fields "SKU"

/-- The per-row body of the import loop: `none` when the row is skipped
(`if not sku or not any(row.values()): continue`), `Except.error` when
`float(row.get("price"))` raises (aborting the job), otherwise the
`ProductCreate` handed to `upsert_product`. -/
def parseRow (header fields : List String) : Option (Except Unit ProductCreate) :=
  if !truthy (skuCell header fields) || !(rowValues header fields).any truthy then
    none
  else
    match skuCell header fields with
    | none => none
    | some s =>
      let priceRes : Except Unit (Option Rat) :=
        match rowGet header fields "price" with
        | none => .ok none
        | some ps =>
          if ps.isEmpty then .ok none
          else match pyFloat ps with
               | some q => .ok (some q)
               | none => .error ()
      match priceRes with
      | .error _ => some (.error ())
      | .ok priceVal =>
        some (.ok { sku := pyStrip s, name := rowGet header fields "name",
                    description := rowGet header fields "description",
                    price := priceVal, active := some true })

/-- One value of the `job_status[job_id]` dictionary. -/
structure JobStatus where
  status : String
  progress : Nat
  message : String
deriving DecidableEq, Repr

/-- Mutable state of one `import_csv` run: the session's uncommitted view,
the last committed table, the `processed` counter, the current
`job_status` record, every record the store ever held (`trace`), and the
divisor of every progress division performed (`divisors`). -/
structure LoopState where
  session : DB
  committed : DB
  processed : Nat
  cur : JobStatus
  trace : List JobStatus
  divisors : List Nat
deriving DecidableEq, Repr

/-- Processing of one parsed row: upsert into the session, bump
`processed`, publish `progress = int((processed / total) * 100)`, and
batch-commit every 500 processed rows. -/
def stepProduct (total : Nat) (st : LoopState) (p : ProductCreate) : LoopState :=
  let session := upsert_product st.session p
  let processed := st.processed + 1
  let cur := { st.cur with progress := 100 * processed / total }
  { session := session,
    committed := if processed % 500 = 0 then session else st.committed,
    processed := processed,
    cur := cur,
    trace := st.trace ++ [cur],
    divisors := st.divisors ++ [total] }

/-- The row loop of `import_csv`: skip blank lines and filtered rows,
abort (second component `false`) when a price fails to parse, otherwise
process every row in file order. -/
def runLines (header : List String) (total : Nat) :
    List CsvLine → LoopState → LoopState × Bool
  | [], st => (st, true)
  | l :: ls, st =>
    match l with
    | .blank => runLines header total ls st
    | .row fields =>
      match parseRow header fields with
      | none => runLines header total ls st
      | some (.error _) => (st, false)
      | some (.ok p) => runLines header total ls (stepProduct total st p)

/-- Outcome of one `import_csv` run: the committed table after the session
closes, the full history of the job's status record, its final value, the
`processed` counter, and the divisors used. -/
structure RunResult where
  db : DB
  trace : List JobStatus
  final : JobStatus
  processed : Nat
  divisors : List Nat
deriving DecidableEq, Repr

/-- The status record registered at launch. -/
def initStatus : JobStatus := ⟨"processing", 0, "Parsing CSV"⟩

/-- Loop state at entry to the row loop. -/
def initState (db : DB) : LoopState :=
  ⟨db, db, 0, initStatus, [initStatus], []⟩

/-- The terminal record the `except` branch writes:
`\x7b"status": "unknown", "progress": 0, "message": "Job not found"\x7d`. -/
def failStatus : JobStatus := ⟨"unknown", 0, "Job not found"⟩

/-- `tasks.import_csv` on an open database and file.  On success the final
commit publishes the session and the status becomes `completed` (status
field first, then message; progress untouched).  On an exception the
status record is replaced by `failStatus`, the session's uncommitted
writes are rolled back by `db.close()`, and the committed table stands. -/
def runImport (db : DB) (file : CsvFile) : RunResult :=
  let total := file.lines.length
  match runLines file.header total file.lines (initState db) with
  | (st, true) =>
    let s1 := { st.cur with status := "completed" }
    let s2 := { s1 with message := "Import complete" }
    { db := st.session, trace := st.trace ++ [s1, s2], final := s2,
      processed := st.processed, divisors := st.divisors }
  | (st, false) =>
    { db := st.committed, trace := st.trace ++ [failStatus], final := failStatus,
      processed := st.processed, divisors := st.divisors }

/-- The sequence of `ProductCreate` records a file makes the loop upsert,
in order, together with the success flag — the loop's control flow does
not depend on the database. -/
def rowPlanAux (header : List String) :
    List CsvLine → List ProductCreate → List ProductCreate × Bool
  | [], acc => (acc, true)
  | l :: ls, acc =>
    match l with
    | .blank => rowPlanAux header ls acc
    | .row fields =>
      match parseRow header fields with
      | none => rowPlanAux header ls acc
      | some (.error _) => (acc, false)
      | some (.ok p) => rowPlanAux header ls (acc ++ [p])

/-- Upsert plan of a whole file. -/
def rowPlan (file : CsvFile) : List ProductCreate × Bool :=
  rowPlanAux file.header file.lines []

/-- Left fold of `upsert_product` over a plan. -/
def applyUpserts (db : DB) (ps : List ProductCreate) : DB :=
  ps.foldl upsert_product db

/-- Number of plan entries that reach the committed table: all of them on
success, only the batch-committed multiples of 500 on failure. -/
def committedCount (n : Nat) (success : Bool) : Nat :=
  if success then n else 500 * (n / 500)

/-! ### Webhooks (`backend/webhook.py`) -/

/-- `models.Webhook`: one stored webhook subscription. -/
structure Webhook where
  id : Nat
  url : String
  event_types : List String
  active : Bool
deriving DecidableEq, Repr

/-- Result of the outbound `httpx` POST inside `test_webhook`: either the
upstream answered (any status code) or the request failed at transport
level (`httpx.RequestError`: timeout, refused connection, DNS failure).
The network is external, so the outcome is an oracle parameter. -/
inductive UpstreamOutcome
  | response (status : Nat) (elapsed_ms : Rat) (body : String)
  | requestError (msg : String)
deriving DecidableEq, Repr

/-- Body of the 200 answer of POST /webhooks/\x7bid\x7d/test. -/
structure TestResult where
  status_code : Nat
  response_time_ms : Rat
  response_body : String
deriving DecidableEq, Repr

/-- `webhook.test_webhook`: 404 when the id is unknown; otherwise POST the
test payload and return the upstream status/elapsed/body as a 200 result,
or raise `HTTPException(400, "Request failed: ...")` on a transport
error. -/
def test_webhook (webhooks : List Webhook) (id : Nat) (outcome : UpstreamOutcome) :
    Except (Nat × String) TestResult :=
  match webhooks.find? (fun w => w.id == id) with
  | none => .error (404, "Webhook not found")
  | some _ =>
    match outcome with
    | .response s e b => .ok ⟨s, e, b⟩
    | .requestError m => .error (400, "Request failed: " ++ m)

/-! ### Derived predicates used by the theorems -/

/-- Distinctness of the `sku_lower` column across the stored rows — the
uniqueness the index `uq_sku_lower` enforces. -/
def DistinctKeys (db : DB) : Prop :=
  db.Pairwise (fun a b => a.sku_lower ≠ b.sku_lower)

/-- Storage invariant: every row's `sku_lower` is the lowercase of its
`sku`, and `sku_lower` values are pairwise distinct. -/
def WellFormed (db : DB) : Prop :=
  (∀ r ∈ db, r.sku_lower = pyLower r.sku) ∧ DistinctKeys db

/-- States of the product table reachable from empty through the public
write operations: direct create (POST /products), partial update
(PUT /products/\x7bsku\x7d) and the import pipeline's upsert.  Failing
requests roll back and leave the state unchanged, so only successful
transitions appear. -/
inductive Reachable : DB → Prop
  | empty : Reachable []
  | create {db db' : DB} (p : ProductCreate) :
      Reachable db → create_product db p = .ok db' → Reachable db'
  | update {db db' : DB} (sku : String) (p : ProductIn) :
      Reachable db → update_product db sku p = .ok db' → Reachable db'
  | upsert {db : DB} (p : ProductCreate) :
      Reachable db → Reachable (upsert_product db p)

/-- A physical line the import loop ignores: a blank line (skipped by the
csv reader) or a row `parseRow` filters out. -/
def lineSkipped (header : List String) : CsvLine → Prop
  | .blank => True
  | .row fields => parseRow header fields = none

/-- Simulation invariant tying the loop state to the plan prefix `acc`
already consumed: the session holds every upsert, the committed table the
batch-committed multiples of 500, and `processed` counts them. -/
def SimInv (db0 : DB) (acc : List ProductCreate) (st : LoopState) : Prop :=
  st.session = applyUpserts db0 acc ∧
  st.committed = applyUpserts db0 (acc.take (500 * (acc.length / 500))) ∧
  st.processed = acc.length

/-- The progress value held by the status record after `n` processed rows
(0 until the first row is processed, then the published quotient). -/
def curProg (total n : Nat) : Nat :=
  if n = 0 then 0 else 100 * n / total

/-- Trace invariant of a run in flight: the published progress values are
sorted, all bounded by the current record's progress, which is the
quotient for the current `processed` count. -/
def TraceInv (total : Nat) (st : LoopState) : Prop :=
  st.trace.Pairwise (fun a b => a.progress ≤ b.progress) ∧
  (∀ x ∈ st.trace, x.progress ≤ st.cur.progress) ∧
  st.cur.progress = curProg total st.processed

/-! ### Theorems -/

instance {α β : Type} [DecidableEq α] [DecidableEq β] : DecidableEq (Except α β) :=
  fun a b =>
    match a, b with
    | .ok x, .ok y =>
      if h : x = y then .isTrue (by rw [h]) else .isFalse (by simp [h])
    | .error x, .error y =>
      if h : x = y then .isTrue (by rw [h]) else .isFalse (by simp [h])
    | .ok _, .error _ => .isFalse (by simp)
    | .error _, .ok _ => .isFalse (by simp)

/-- C9: the test-delivery endpoint returns a 200 result carrying the
upstream status code (even a non-2xx one such as 503), elapsed time and
body whenever the outbound POST completes, and raises a 400 error exactly
when the request fails at transport level. -/
theorem C9_test_webhook_error_modes (webhooks : List Webhook) (id : Nat)
    (w : Webhook) (hfind : webhooks.find? (fun x => x.id == id) = some w) :
    (∀ s e b, test_webhook webhooks id (.response s e b) = .ok ⟨s, e, b⟩) ∧
    (∀ m, test_webhook webhooks id (.requestError m) =
        .error (400, "Request failed: " ++ m)) := by
  refine ⟨fun s e b => ?_, fun m => ?_⟩ <;> simp [test_webhook, hfind]

/-- Witness for C9 at a stored webhook, an upstream 503 answer and a
transport timeout. -/
theorem C9_test_webhook_error_modes_witness :
    test_webhook [⟨1, "https://example.com/hook", ["product.imported"], true⟩] 1
        (.response 503 145 "Service Unavailable") = .ok ⟨503, 145, "Service Unavailable"⟩ ∧
    test_webhook [⟨1, "https://example.com/hook", ["product.imported"], true⟩] 1
        (.requestError "timeout") = .error (400, "Request failed: timeout") := by
  have h := C9_test_webhook_error_modes
    [⟨1, "https://example.com/hook", ["product.imported"], true⟩] 1
    ⟨1, "https://example.com/hook", ["product.imported"], true⟩ rfl
  exact ⟨h.1 503 145 "Service Unavailable", h.2 "timeout"⟩

/-- C1 counterexample: upserting sku "A" and then sku "a" leaves one row
whose stored `sku` is the FIRST casing "A", not the most recent "a"
(`on_conflict_do_update` does not list `sku` among the overwritten
columns); moreover the upsert normalizes with `lower` alone, no trim, so
" a" and "a" — equal after lower∘trim — produce two rows. -/
theorem C1_counterexample :
    (upsert_product (upsert_product [] ⟨"A", some "first", none, none, some true⟩)
        ⟨"a", some "second", none, none, some true⟩).map Product.sku = ["A"] ∧
    ("A" : String) ≠ "a" ∧
    pyLower (pyStrip " a") = pyLower (pyStrip "a") ∧
    (upsert_product (upsert_product [] ⟨" a", none, none, none, some true⟩)
        ⟨"a", none, none, none, some true⟩).length = 2 := by
  refine ⟨by decide, by decide, by decide, by decide⟩

/-- C3 counterexample: a file whose second data line is all-empty is
skipped but still counted in `total`, so the job completes with progress
50, never reaching 100 (refuting "reaches 100 iff completed"); and a file
whose second row carries the unparsable price "$5" makes the except
branch reset the status record to progress 0 after it had published 50
(refuting monotonicity). -/
theorem C3_counterexample :
    (runImport [] ⟨["sku", "name"], [.row ["A1", "x"], .row ["", ""]]⟩).final.status
        = "completed" ∧
    (runImport [] ⟨["sku", "name"], [.row ["A1", "x"], .row ["", ""]]⟩).trace.map
        JobStatus.progress = [0, 50, 50, 50] ∧
    (runImport [] ⟨["sku", "price"], [.row ["A1", "1"], .row ["B2", "$5"]]⟩).trace.map
        JobStatus.progress = [0, 50, 0] ∧
    ¬ ([0, 50, 0] : List Nat).Pairwise (· ≤ ·) := by
  refine ⟨by decide, by decide, by decide, by decide⟩

/-- C4 counterexample: importing a file with a header line and zero data
lines completes without any division, but the job's published progress
stays 0 — it is not "treated as 100% complete". -/
theorem C4_counterexample :
    runImport [] ⟨["sku"], []⟩ =
      ⟨[], [initStatus, ⟨"completed", 0, "Parsing CSV"⟩,
            ⟨"completed", 0, "Import complete"⟩],
       ⟨"completed", 0, "Import complete"⟩, 0, []⟩ ∧
    (100 : Nat) ≠ 0 := by
  refine ⟨by decide, by decide⟩

/-- C6: evaluation at the failing input.  The loop looks columns up only
under the exact names "sku"/"SKU", "name", "description", "price", so a
file whose header spells `Sku,Name,Price` has every row skipped (the
job "completes" with zero products), and a header spelling
`sku,NAME,PRICE` imports the row with name and price silently dropped —
against the documented case-insensitive matching. -/
theorem C6_header_matching_case_sensitive :
    runImport [] ⟨["Sku", "Name", "Price"], [.row ["A1", "Widget", "9.99"]]⟩ =
      ⟨[], [initStatus, ⟨"completed", 0, "Parsing CSV"⟩,
            ⟨"completed", 0, "Import complete"⟩],
       ⟨"completed", 0, "Import complete"⟩, 0, []⟩ ∧
    parseRow ["sku", "NAME", "PRICE"] ["A1", "Widget", "9.99"] =
      some (.ok ⟨"A1", none, none, none, some true⟩) := by
  refine ⟨by decide, by decide⟩

/-- C7 counterexample: a row that supplies only a SKU while the other
columns are PRESENT BUT EMPTY is imported with `name` and `description`
equal to the empty string, not null — only `price` (guarded by a
truthiness test) becomes null. -/
theorem C7_counterexample :
    parseRow ["sku", "name", "description", "price"] ["A1", "", "", ""] =
      some (.ok ⟨"A1", some "", some "", none, some true⟩) ∧
    (some "" : Option String) ≠ none := by
  refine ⟨by decide, by decide⟩

/-- C10 counterexample: two rows whose skus differ only in surrounding
whitespace are both storable (their `sku_lower` values differ), and then
DELETE /products/" ABC " — a path sku differing from the stored "ABC"
only in whitespace — finds the second row, deletes it and returns 200
instead of 404: the claim's whitespace clause fails when such a sibling
row exists. -/
theorem C10_counterexample :
    create_product [] ⟨"ABC", none, none, none, some true⟩ =
      .ok [⟨"ABC", "abc", none, none, none, some true⟩] ∧
    create_product [⟨"ABC", "abc", none, none, none, some true⟩]
        ⟨" ABC ", none, none, none, some true⟩ =
      .ok [⟨"ABC", "abc", none, none, none, some true⟩,
           ⟨" ABC ", " abc ", none, none, none, some true⟩] ∧
    pyStrip " ABC " = "ABC" ∧ (" ABC " : String) ≠ "ABC" ∧
    delete_product_by_sku
        [⟨"ABC", "abc", none, none, none, some true⟩,
         ⟨" ABC ", " abc ", none, none, none, some true⟩] " ABC " =
      .ok [⟨"ABC", "abc", none, none, none, some true⟩] := by
  refine ⟨by decide, by decide, by decide, by decide, by decide⟩

/-! ### Helper lemmas about the upsert engine -/

theorem upsertApply_sku_lower (p : ProductCreate) (r : Product) :
    (upsertApply p r).sku_lower = r.sku_lower := by
  rw [upsertApply]; split <;> rfl

theorem upsertApply_sku (p : ProductCreate) (r : Product) :
    (upsertApply p r).sku = r.sku := by
  rw [upsertApply]; split <;> rfl

theorem any_key_iff (db : DB) (kl : String) :
    db.any (fun r => r.sku_lower == kl) = true ↔ kl ∈ keys db := by
  simp only [List.any_eq_true, keys, List.mem_map, beq_iff_eq]

theorem keys_upsert_of_mem {db : DB} {p : ProductCreate}
    (h : pyLower p.sku ∈ keys db) :
    keys (upsert_product db p) = keys db ∧
    (upsert_product db p).length = db.length := by
  have hany : db.any (fun r => r.sku_lower == pyLower p.sku) = true :=
    (any_key_iff db _).2 h
  constructor
  · simp only [upsert_product, hany, if_true, keys, List.map_map]
    refine List.map_congr_left fun r _ => ?_
    simp only [Function.comp_apply, upsertApply_sku_lower]
  · simp only [upsert_product, hany, if_true, List.length_map]

theorem keys_upsert_of_not_mem {db : DB} {p : ProductCreate}
    (h : pyLower p.sku ∉ keys db) :
    upsert_product db p =
      db ++ [⟨p.sku, pyLower p.sku, p.name, p.description, p.price,
              some (p.active.getD true)⟩] := by
  have hany : db.any (fun r => r.sku_lower == pyLower p.sku) = false := by
    rw [← Bool.not_eq_true, any_key_iff]; exact h
  simp [upsert_product, hany]

theorem mem_keys_upsert_self (db : DB) (p : ProductCreate) :
    pyLower p.sku ∈ keys (upsert_product db p) := by
  by_cases h : pyLower p.sku ∈ keys db
  · rw [(keys_upsert_of_mem h).1]; exact h
  · rw [keys_upsert_of_not_mem h]; simp [keys]

theorem mem_keys_upsert_mono {db : DB} {p : ProductCreate} {a : String}
    (h : a ∈ keys db) : a ∈ keys (upsert_product db p) := by
  by_cases hm : pyLower p.sku ∈ keys db
  · rw [(keys_upsert_of_mem hm).1]; exact h
  · rw [keys_upsert_of_not_mem hm]; simp only [keys, List.map_append]
    exact List.mem_append_left _ h

theorem applyUpserts_cons (db : DB) (p : ProductCreate) (ps : List ProductCreate) :
    applyUpserts db (p :: ps) = applyUpserts (upsert_product db p) ps := rfl

theorem applyUpserts_append (db : DB) (ps qs : List ProductCreate) :
    applyUpserts db (ps ++ qs) = applyUpserts (applyUpserts db ps) qs := by
  simp [applyUpserts, List.foldl_append]

theorem mem_keys_applyUpserts_mono {a : String} :
    ∀ (ps : List ProductCreate) (db : DB), a ∈ keys db →
      a ∈ keys (applyUpserts db ps)
  | [], _, h => h
  | p :: ps, db, h =>
    mem_keys_applyUpserts_mono ps (upsert_product db p) (mem_keys_upsert_mono h)

theorem mem_keys_applyUpserts_self :
    ∀ (ps : List ProductCreate) (db : DB) (p : ProductCreate), p ∈ ps →
      pyLower p.sku ∈ keys (applyUpserts db ps) := by
  intro ps
  induction ps with
  | nil => intro db p h; cases h
  | cons q qs ih =>
    intro db p h
    rcases List.mem_cons.1 h with rfl | hq
    · exact mem_keys_applyUpserts_mono qs _ (mem_keys_upsert_self db p)
    · exact ih _ p hq

theorem applyUpserts_length_of_mem :
    ∀ (ps : List ProductCreate) (db : DB),
      (∀ p ∈ ps, pyLower p.sku ∈ keys db) →
      keys (applyUpserts db ps) = keys db ∧
      (applyUpserts db ps).length = db.length := by
  intro ps
  induction ps with
  | nil => intro db _; exact ⟨rfl, rfl⟩
  | cons q qs ih =>
    intro db h
    have hq := keys_upsert_of_mem (h q (List.mem_cons_self q qs))
    have := ih (upsert_product db q) fun p hp => by
      rw [hq.1]; exact h p (List.mem_cons_of_mem q hp)
    rw [applyUpserts_cons]
    exact ⟨this.1.trans hq.1, this.2.trans hq.2⟩

/-! ### Simulation: the run is the plan applied to the table -/

theorem stepProduct_sim {db0 : DB} {acc : List ProductCreate} {st : LoopState}
    (total : Nat) (p : ProductCreate) (h : SimInv db0 acc st) :
    SimInv db0 (acc ++ [p]) (stepProduct total st p) := by
  obtain ⟨hs, hc, hp⟩ := h
  refine ⟨?_, ?_, ?_⟩
  · simp [stepProduct, hs, applyUpserts_append, applyUpserts]
  · simp only [stepProduct, hp, List.length_append, List.length_singleton]
    by_cases hdvd : (acc.length + 1) % 500 = 0
    · rw [if_pos hdvd]
      have h1 : 500 * ((acc.length + 1) / 500) = acc.length + 1 :=
        Nat.mul_div_cancel' (Nat.dvd_of_mod_eq_zero hdvd)
      have h2 : (acc ++ [p]).take (acc.length + 1) = acc ++ [p] := by
        have := List.take_length (acc ++ [p])
        simp only [List.length_append, List.length_singleton] at this
        exact this
      rw [h1, h2, hs, applyUpserts_append]
      simp [applyUpserts]
    · rw [if_neg hdvd]
      have hnd : ¬ 500 ∣ acc.length + 1 := fun hc => hdvd (Nat.mod_eq_zero_of_dvd hc)
      have h1 : (acc.length + 1) / 500 = acc.length / 500 := by
        rw [Nat.succ_div, if_neg hnd, Nat.add_zero]
      have h2 : 500 * (acc.length / 500) ≤ acc.length := by
        rw [Nat.mul_comm]; exact Nat.div_mul_le_self acc.length 500
      rw [h1, List.take_append_of_le_length h2, hc]
  · simp [stepProduct, hp]

theorem runLines_sim (h : List String) (total : Nat) (db0 : DB) :
    ∀ (ls : List CsvLine) (acc : List ProductCreate) (st : LoopState),
      SimInv db0 acc st →
      SimInv db0 (rowPlanAux h ls acc).1 (runLines h total ls st).1 ∧
      (runLines h total ls st).2 = (rowPlanAux h ls acc).2 := by
  intro ls
  induction ls with
  | nil => intro acc st hst; exact ⟨hst, rfl⟩
  | cons l ls ih =>
    intro acc st hst
    cases l with
    | blank =>
      simp only [runLines, rowPlanAux]
      exact ih acc st hst
    | row fields =>
      cases hpr : parseRow h fields with
      | none =>
        simp only [runLines, rowPlanAux, hpr]
        exact ih acc st hst
      | some e =>
        cases e with
        | error u =>
          simp only [runLines, rowPlanAux, hpr]
          exact ⟨hst, trivial⟩
        | ok p =>
          simp only [runLines, rowPlanAux, hpr]
          exact ih (acc ++ [p]) _ (stepProduct_sim total p hst)

theorem runImport_spec (db : DB) (f : CsvFile) :
    (runImport db f).db =
      applyUpserts db
        ((rowPlan f).1.take (committedCount (rowPlan f).1.length (rowPlan f).2)) ∧
    (runImport db f).processed = (rowPlan f).1.length := by
  have hinit : SimInv db [] (initState db) := ⟨rfl, rfl, rfl⟩
  have hs := runLines_sim f.header f.lines.length db f.lines [] (initState db) hinit
  rcases hrl : runLines f.header f.lines.length f.lines (initState db) with ⟨st, b⟩
  rw [hrl] at hs
  obtain ⟨⟨hses, hcom, hproc⟩, hflag⟩ := hs
  have hplan : rowPlan f = rowPlanAux f.header f.lines [] := rfl
  cases b with
  | false =>
    simp only [runImport, hrl]
    rw [hplan, hcom, hproc]
    have : (rowPlanAux f.header f.lines []).2 = false := hflag.symm
    rw [committedCount, this, if_neg (by simp)]
    exact ⟨rfl, rfl⟩
  | true =>
    simp only [runImport, hrl]
    rw [hplan, hses, hproc]
    have : (rowPlanAux f.header f.lines []).2 = true := hflag.symm
    rw [committedCount, this, if_pos rfl, List.take_length]
    exact ⟨rfl, rfl⟩

/-- C5: importing the same file twice in sequence leaves the same final
stored row count as importing it once — every upsert of the second run
hits a `sku_lower` key the first run already committed, so only field
updates happen. -/
theorem C5_import_twice_same_row_count (db : DB) (f : CsvFile) :
    ((runImport (runImport db f).db f).db).length = ((runImport db f).db).length := by
  obtain ⟨h1, _⟩ := runImport_spec db f
  obtain ⟨h2, _⟩ := runImport_spec (runImport db f).db f
  rw [h2, h1]
  exact (applyUpserts_length_of_mem _ _
    (fun p hp => mem_keys_applyUpserts_self _ db p hp)).2

/-! ### Progress-trace lemmas -/

theorem stepProduct_trace {total : Nat} {st : LoopState} (p : ProductCreate)
    (h : TraceInv total st) : TraceInv total (stepProduct total st p) := by
  obtain ⟨h1, h2, h3⟩ := h
  have hle : st.cur.progress ≤ 100 * (st.processed + 1) / total := by
    rw [h3, curProg]
    by_cases h0 : st.processed = 0
    · simp [h0]
    · rw [if_neg h0]
      exact Nat.div_le_div_right (Nat.mul_le_mul_left 100 (Nat.le_succ _))
  refine ⟨?_, ?_, ?_⟩
  · simp only [stepProduct]
    rw [List.pairwise_append]
    refine ⟨h1, List.pairwise_singleton _ _, ?_⟩
    intro a ha b hb
    rcases List.mem_singleton.1 hb with rfl
    exact le_trans (h2 a ha) hle
  · intro x hx
    simp only [stepProduct] at hx ⊢
    rcases List.mem_append.1 hx with hx | hx
    · exact le_trans (h2 x hx) hle
    · rcases List.mem_singleton.1 hx with rfl
      exact le_refl _
  · simp [stepProduct, curProg]

theorem runLines_trace (h : List String) (total : Nat) :
    ∀ (ls : List CsvLine) (st : LoopState), TraceInv total st →
      TraceInv total (runLines h total ls st).1 := by
  intro ls
  induction ls with
  | nil => intro st hst; exact hst
  | cons l ls ih =>
    intro st hst
    cases l with
    | blank => simp only [runLines]; exact ih st hst
    | row fields =>
      cases hpr : parseRow h fields with
      | none => simp only [runLines, hpr]; exact ih st hst
      | some e =>
        cases e with
        | error u => simp only [runLines, hpr]; exact hst
        | ok p => simp only [runLines, hpr]; exact ih _ (stepProduct_trace p hst)

theorem runLines_processed_le (h : List String) (total : Nat) :
    ∀ (ls : List CsvLine) (st : LoopState),
      st.processed + ls.length ≤ total →
      (runLines h total ls st).1.processed ≤ total := by
  intro ls
  induction ls with
  | nil => intro st hst; simp only [runLines]; omega
  | cons l ls ih =>
    intro st hst
    simp only [List.length_cons] at hst
    cases l with
    | blank => simp only [runLines]; exact ih st (by omega)
    | row fields =>
      cases hpr : parseRow h fields with
      | none => simp only [runLines, hpr]; exact ih st (by omega)
      | some e =>
        cases e with
        | error u => simp only [runLines, hpr]; omega
        | ok p =>
          simp only [runLines, hpr]
          exact ih _ (by simp only [stepProduct]; omega)

theorem initState_traceInv (db : DB) (total : Nat) :
    TraceInv total (initState db) := by
  refine ⟨List.pairwise_singleton _ _, ?_, rfl⟩
  intro x hx
  rcases List.mem_singleton.1 hx with rfl
  exact le_refl _

/-- C3 (amended): over any run that reaches `completed`, every published
progress value is monotonically non-decreasing, and the completed job's
final progress is 100 exactly when every counted line was processed
(`processed = total` with at least one data line); a failing run instead
replaces the record by `failStatus`, dropping progress back to 0. -/
theorem C3_progress_monotone_and_100_iff (db : DB) (f : CsvFile)
    (hc : (runImport db f).final.status = "completed") :
    (runImport db f).trace.Pairwise (fun a b => a.progress ≤ b.progress) ∧
    ((runImport db f).final.progress = 100 ↔
      (runImport db f).processed = f.lines.length ∧ 0 < f.lines.length) := by
  rcases hrl : runLines f.header f.lines.length f.lines (initState db) with ⟨st, b⟩
  have htr := runLines_trace f.header f.lines.length f.lines (initState db)
    (initState_traceInv db f.lines.length)
  have hple := runLines_processed_le f.header f.lines.length f.lines (initState db)
    (by simp [initState])
  rw [hrl] at htr hple
  dsimp only at htr hple
  cases b with
  | false =>
    exfalso
    revert hc
    simp [runImport, hrl, failStatus]
  | true =>
    obtain ⟨h1, h2, h3⟩ := htr
    constructor
    · simp only [runImport, hrl]
      rw [List.pairwise_append]
      refine ⟨h1, ?_, ?_⟩
      · exact List.pairwise_pair.2 (le_refl _)
      · intro a ha b hb
        have hbp : b.progress = st.cur.progress := by
          rcases List.mem_cons.1 hb with rfl | hb
          · rfl
          · rcases List.mem_singleton.1 hb with rfl; rfl
        rw [hbp]
        exact h2 a ha
    · simp only [runImport, hrl]
      show st.cur.progress = 100 ↔ st.processed = f.lines.length ∧ 0 < f.lines.length
      rw [h3, curProg]
      by_cases h0 : st.processed = 0
      · rw [if_pos h0]
        constructor
        · omega
        · rintro ⟨hpt, hlt⟩; omega
      · rw [if_neg h0]
        have hppos : 0 < st.processed := Nat.pos_of_ne_zero h0
        have hlt : 0 < f.lines.length := lt_of_lt_of_le hppos hple
        constructor
        · intro h100
          refine ⟨?_, hlt⟩
          have hge : 100 ≤ 100 * st.processed / f.lines.length := le_of_eq h100.symm
          have := (Nat.le_div_iff_mul_le hlt).1 hge
          have hto : f.lines.length ≤ st.processed := by
            have := Nat.le_of_mul_le_mul_left (by omega : 100 * f.lines.length ≤ 100 * st.processed) (by omega : 0 < 100)
            exact this
          omega
        · rintro ⟨hpt, _⟩
          rw [hpt]
          exact Nat.mul_div_cancel 100 hlt

/-- Witness for C3 (amended): a one-row file whose run completes with the
single processed row equal to the single counted line. -/
theorem C3_progress_monotone_and_100_iff_witness :
    (runImport [] ⟨["sku"], [CsvLine.row ["A1"]]⟩).trace.Pairwise
        (fun a b => a.progress ≤ b.progress) ∧
    ((runImport [] ⟨["sku"], [CsvLine.row ["A1"]]⟩).final.progress = 100 ↔
      (runImport [] ⟨["sku"], [CsvLine.row ["A1"]]⟩).processed = 1 ∧ (0 : Nat) < 1) :=
  C3_progress_monotone_and_100_iff [] ⟨["sku"], [CsvLine.row ["A1"]]⟩ (by decide)

/-- Divisions happen only after at least one row was parsed, which forces
at least one data line, so the `total` divisor is never zero. -/
theorem runLines_divisors (h : List String) (total : Nat) :
    ∀ (ls : List CsvLine) (st : LoopState),
      ls.length ≤ total → 0 ∉ st.divisors →
      0 ∉ (runLines h total ls st).1.divisors := by
  intro ls
  induction ls with
  | nil => intro st _ hd; exact hd
  | cons l ls ih =>
    intro st hlen hd
    simp only [List.length_cons] at hlen
    cases l with
    | blank => simp only [runLines]; exact ih st (by omega) hd
    | row fields =>
      cases hpr : parseRow h fields with
      | none => simp only [runLines, hpr]; exact ih st (by omega) hd
      | some e =>
        cases e with
        | error u => simp only [runLines, hpr]; exact hd
        | ok p =>
          simp only [runLines, hpr]
          refine ih _ (by omega) ?_
          simp only [stepProduct, List.mem_append, List.mem_singleton]
          rintro (hx | hx)
          · exact hd hx
          · omega

/-- C4 (amended): the import never divides by zero — every division's
divisor `total` is positive because a processed row implies a data line —
and a file with zero data rows completes immediately, but with published
progress 0, not 100. -/
theorem C4_no_division_by_zero (db : DB) (f : CsvFile) (header : List String) :
    0 ∉ (runImport db f).divisors ∧
    runImport db ⟨header, []⟩ =
      ⟨db, [initStatus, ⟨"completed", 0, "Parsing CSV"⟩,
            ⟨"completed", 0, "Import complete"⟩],
       ⟨"completed", 0, "Import complete"⟩, 0, []⟩ := by
  constructor
  · have hdv := runLines_divisors f.header f.lines.length f.lines (initState db)
      (le_refl _) (by simp [initState])
    rcases hrl : runLines f.header f.lines.length f.lines (initState db) with ⟨st, b⟩
    rw [hrl] at hdv
    cases b <;> simp only [runImport, hrl] <;> exact hdv
  · rfl

/-! ### Row-level lemmas for skipped and sku-only rows -/

theorem mem_dropWhile_of {α : Type} (p : α → Bool) {l : List α} {c : α}
    (hc : c ∈ l) (hp : p c = false) : c ∈ l.dropWhile p := by
  have hsplit := List.takeWhile_append_dropWhile (p := p) (l := l)
  rw [← hsplit] at hc
  rcases List.mem_append.1 hc with h | h
  · have := List.mem_takeWhile_imp h
    simp [hp] at this
  · exact h

theorem mem_pyStripChars {cs : List Char} {c : Char} (hc : c ∈ cs)
    (hw : c.isWhitespace = false) : c ∈ pyStripChars cs := by
  unfold pyStripChars
  rw [List.mem_reverse]
  refine mem_dropWhile_of _ ?_ hw
  rw [List.mem_reverse]
  exact mem_dropWhile_of _ hc hw

theorem pyFloatCore_none_of_badchar {cs : List Char} {c : Char} (hc : c ∈ cs)
    (hdig : c.isDigit = false) (hdot : c ≠ '.') : pyFloatCore cs = none := by
  have hcrest : c ∈ cs.dropWhile Char.isDigit := mem_dropWhile_of _ hc hdig
  rw [pyFloatCore]
  split
  · next heq => rw [heq] at hcrest; cases hcrest
  · next frac heq =>
    rw [heq] at hcrest
    have hct : c ∈ frac := by
      rcases List.mem_cons.1 hcrest with rfl | h
      · exact absurd rfl hdot
      · exact h
    have hall : frac.all Char.isDigit = false := by
      rcases hfa : frac.all Char.isDigit with _ | _
      · rfl
      · have := List.all_eq_true.1 hfa c hct
        rw [hdig] at this; cases this
    rw [hall]
    simp
  · rfl

theorem pyFloat_none_of_badchar {s : String} {c : Char} (hc : c ∈ s.data)
    (halpha : floatAlphabet c = false) : pyFloat s = none := by
  have hfacts : c.isDigit = false ∧ ¬ c = '.' ∧ ¬ c = '+' ∧ ¬ c = '-' ∧
      c.isWhitespace = false := by
    simp only [floatAlphabet, Bool.or_eq_false_iff, decide_eq_false_iff_not] at halpha
    tauto
  obtain ⟨hdig, hdot, hplus, hminus, hws⟩ := hfacts
  have hmem : c ∈ pyStripChars s.data := mem_pyStripChars hc hws
  rw [pyFloat]
  split
  · rfl
  · next cs heq =>
    have hctl : c ∈ cs := by
      rw [heq] at hmem
      rcases List.mem_cons.1 hmem with rfl | h
      · exact absurd rfl hplus
      · exact h
    exact pyFloatCore_none_of_badchar hctl hdig hdot
  · next cs heq =>
    have hctl : c ∈ cs := by
      rw [heq] at hmem
      rcases List.mem_cons.1 hmem with rfl | h
      · exact absurd rfl hminus
      · exact h
    rw [pyFloatCore_none_of_badchar hctl hdig hdot]
    rfl
  · exact pyFloatCore_none_of_badchar hmem hdig hdot

theorem mem_dedupFirstAux :
    ∀ (l : List String) (seen : List String) (a : String),
      a ∈ dedupFirstAux l seen ↔ a ∈ l ∧ a ∉ seen := by
  intro l
  induction l with
  | nil => intro seen a; simp [dedupFirstAux]
  | cons k ks ih =>
    intro seen a
    rw [dedupFirstAux]
    by_cases hk : k ∈ seen
    · rw [if_pos hk, ih]
      constructor
      · rintro ⟨h1, h2⟩; exact ⟨List.mem_cons_of_mem _ h1, h2⟩
      · rintro ⟨h1, h2⟩
        rcases List.mem_cons.1 h1 with rfl | h1
        · exact absurd hk h2
        · exact ⟨h1, h2⟩
    · rw [if_neg hk]
      constructor
      · intro hmem
        rcases List.mem_cons.1 hmem with rfl | hmem
        · exact ⟨List.mem_cons_self _ _, hk⟩
        · rw [ih] at hmem
          obtain ⟨h1, h2⟩ := hmem
          have h3 : a ∉ seen := fun hs => h2 (List.mem_cons_of_mem _ hs)
          exact ⟨List.mem_cons_of_mem _ h1, h3⟩
      · rintro ⟨h1, h2⟩
        rcases List.mem_cons.1 h1 with rfl | h1
        · exact List.mem_cons_self _ _
        · by_cases hak : a = k
          · subst hak; exact List.mem_cons_self _ _
          · refine List.mem_cons_of_mem _ ((ih (k :: seen) a).2 ⟨h1, ?_⟩)
            simp [hak, h2]

theorem mem_dedupFirst {l : List String} {a : String} (h : a ∈ l) :
    a ∈ dedupFirst l :=
  (mem_dedupFirstAux l [] a).2 ⟨h, by simp⟩

theorem foldl_lastIdx_spec (header : List String) (k : String) :
    ∀ (idxs : List Nat) (acc : Option Nat),
      (∀ j, acc = some j → header.get? j = some k) →
      ∀ i, idxs.foldl (fun a i => if header.get? i = some k then some i else a) acc
          = some i →
        header.get? i = some k := by
  intro idxs
  induction idxs with
  | nil => intro acc hacc i h; exact hacc i h
  | cons x xs ih =>
    intro acc hacc i h
    rw [List.foldl_cons] at h
    refine ih _ ?_ i h
    intro j hj
    by_cases hx : header.get? x = some k
    · rw [if_pos hx] at hj; injection hj with hj; rw [← hj]; exact hx
    · rw [if_neg hx] at hj; exact hacc j hj

theorem lastIdxOf_mem {header : List String} {k : String} {i : Nat}
    (h : lastIdxOf header k = some i) : k ∈ header := by
  have hspec := foldl_lastIdx_spec header k (List.range header.length) none
    (by intro j hj; cases hj) i h
  exact List.get?_mem hspec

theorem rowGet_col_mem {header fields : List String} {k v : String}
    (h : rowGet header fields k = some v) : k ∈ header := by
  rw [rowGet] at h
  rcases hl : lastIdxOf header k with _ | i
  · rw [hl] at h; cases h
  · exact lastIdxOf_mem hl

theorem rowValues_any_of_col {header fields : List String} {k s : String}
    (hg : rowGet header fields k = some s) (hs : s.isEmpty = false) :
    (rowValues header fields).any truthy = true := by
  have hk : k ∈ dedupFirst header := mem_dedupFirst (rowGet_col_mem hg)
  refine List.any_eq_true.2 ⟨some s, ?_, ?_⟩
  · exact List.mem_map.2 ⟨k, hk, hg⟩
  · simp [truthy, hs]

theorem skuCell_cases {header fields : List String} {s : String}
    (h : skuCell header fields = some s) :
    rowGet header fields "sku" = some s ∨ rowGet header fields "SKU" = some s := by
  rw [skuCell] at h
  split at h
  · exact Or.inl h
  · exact Or.inr h

theorem rowPlanAux_skipped (h : List String) (l : CsvLine) (hsk : lineSkipped h l) :
    ∀ (pre suf : List CsvLine) (acc : List ProductCreate),
      rowPlanAux h (pre ++ l :: suf) acc = rowPlanAux h (pre ++ suf) acc := by
  intro pre
  induction pre with
  | nil =>
    intro suf acc
    cases l with
    | blank => simp only [List.nil_append, rowPlanAux]
    | row fields =>
      have hpr : parseRow h fields = none := hsk
      simp only [List.nil_append, rowPlanAux, hpr]
  | cons q pre ih =>
    intro suf acc
    cases q with
    | blank =>
      simp only [List.cons_append, rowPlanAux]
      exact ih suf acc
    | row fields =>
      cases hq : parseRow h fields with
      | none => simp only [List.cons_append, rowPlanAux, hq]; exact ih suf acc
      | some e =>
        cases e with
        | error u => simp only [List.cons_append, rowPlanAux, hq]
        | ok p => simp only [List.cons_append, rowPlanAux, hq]; exact ih suf _

theorem runImport_skip_line (db : DB) (header : List String) (l : CsvLine)
    (pre suf : List CsvLine) (hsk : lineSkipped header l) :
    (runImport db ⟨header, pre ++ l :: suf⟩).db =
      (runImport db ⟨header, pre ++ suf⟩).db ∧
    (runImport db ⟨header, pre ++ l :: suf⟩).processed =
      (runImport db ⟨header, pre ++ suf⟩).processed := by
  obtain ⟨ha1, ha2⟩ := runImport_spec db ⟨header, pre ++ l :: suf⟩
  obtain ⟨hb1, hb2⟩ := runImport_spec db ⟨header, pre ++ suf⟩
  have hpl : rowPlan (⟨header, pre ++ l :: suf⟩ : CsvFile) =
      rowPlan (⟨header, pre ++ suf⟩ : CsvFile) :=
    rowPlanAux_skipped header l hsk pre suf []
  rw [ha1, hb1, ha2, hb2, hpl]
  exact ⟨rfl, rfl⟩

/-- C7 (amended): blank or all-empty lines are skipped, leaving both the
stored table and the `processed` counter untouched; a row whose only
populated column is the SKU, the others ABSENT, imports with null name,
null description, null price and `active=true` (when the other columns
are present but empty, `name`/`description` become empty strings
instead — see the counterexample). -/
theorem C7_blank_and_sku_only_rows :
    (∀ (db : DB) (header : List String) (l : CsvLine) (pre suf : List CsvLine),
      lineSkipped header l →
      (runImport db ⟨header, pre ++ l :: suf⟩).db =
        (runImport db ⟨header, pre ++ suf⟩).db ∧
      (runImport db ⟨header, pre ++ l :: suf⟩).processed =
        (runImport db ⟨header, pre ++ suf⟩).processed) ∧
    (∀ header fields, (rowValues header fields).any truthy = false →
      parseRow header fields = none) ∧
    (∀ header fields s, skuCell header fields = some s → s.isEmpty = false →
      rowGet header fields "name" = none →
      rowGet header fields "description" = none →
      rowGet header fields "price" = none →
      parseRow header fields =
        some (.ok ⟨pyStrip s, none, none, none, some true⟩)) := by
  refine ⟨fun db header l pre suf hsk => runImport_skip_line db header l pre suf hsk,
    ?_, ?_⟩
  · intro header fields hany
    simp [parseRow, hany]
  · intro header fields s hsku hs hname hdesc hprice
    have hany : (rowValues header fields).any truthy = true := by
      rcases skuCell_cases hsku with hg | hg
      · exact rowValues_any_of_col hg hs
      · exact rowValues_any_of_col hg hs
    simp [parseRow, hsku, hany, truthy, hs, hname, hdesc, hprice]

/-- Witness for C7 (amended) at a blank line, an all-empty row and a
sku-only row. -/
theorem C7_blank_and_sku_only_rows_witness :
    ((runImport [] ⟨["sku"], [CsvLine.blank, CsvLine.row ["A1"]]⟩).db =
        (runImport [] ⟨["sku"], [CsvLine.row ["A1"]]⟩).db ∧
      (runImport [] ⟨["sku"], [CsvLine.blank, CsvLine.row ["A1"]]⟩).processed =
        (runImport [] ⟨["sku"], [CsvLine.row ["A1"]]⟩).processed) ∧
    parseRow ["sku", "name"] ["", ""] = none ∧
    parseRow ["sku"] ["A1"] =
      some (.ok ⟨pyStrip "A1", none, none, none, some true⟩) := by
  obtain ⟨h1, h2, h3⟩ := C7_blank_and_sku_only_rows
  exact ⟨h1 [] ["sku"] CsvLine.blank [] [CsvLine.row ["A1"]] trivial,
    h2 ["sku", "name"] ["", ""] (by decide),
    h3 ["sku"] ["A1"] "A1" (by decide) (by decide) (by decide) (by decide) (by decide)⟩

/-! ### Abort propagation -/

theorem runLines_append (h : List String) (total : Nat) :
    ∀ (l₁ l₂ : List CsvLine) (st : LoopState),
      runLines h total (l₁ ++ l₂) st =
        (if (runLines h total l₁ st).2 then
          runLines h total l₂ (runLines h total l₁ st).1
        else runLines h total l₁ st) := by
  intro l₁
  induction l₁ with
  | nil => intro l₂ st; simp [runLines]
  | cons l ls ih =>
    intro l₂ st
    cases l with
    | blank =>
      simp only [List.cons_append, runLines]
      exact ih l₂ st
    | row fields =>
      cases hpr : parseRow h fields with
      | none =>
        simp only [List.cons_append, runLines, hpr]
        exact ih l₂ st
      | some e =>
        cases e with
        | error u => simp only [List.cons_append, runLines, hpr]; rfl
        | ok p =>
          simp only [List.cons_append, runLines, hpr]
          exact ih l₂ _

/-- C8: an absent or empty price cell yields a product with no price
(null), never zero; a price string holding a character outside Python's
float alphabet (a currency symbol, a letter of `USD`, ...) makes
`float()` raise, which ends the row loop immediately — the job's status
record becomes the terminal failure sentinel (`"unknown"`, the
spec's failed state) and no row after the bad one is processed. -/
theorem C8_price_absent_null_and_bad_price_aborts :
    (∀ header fields prod, parseRow header fields = some (.ok prod) →
      (rowGet header fields "price" = none ∨ rowGet header fields "price" = some "") →
      prod.price = none) ∧
    (∀ (s : String) (c : Char), c ∈ s.data → floatAlphabet c = false →
      pyFloat s = none) ∧
    (∀ header fields s ps, skuCell header fields = some s → s.isEmpty = false →
      rowGet header fields "price" = some ps → ps.isEmpty = false →
      pyFloat ps = none →
      parseRow header fields = some (.error ())) ∧
    (∀ (db : DB) (header : List String) (pre suf : List CsvLine)
        (fields : List String),
      (rowPlanAux header pre []).2 = true →
      parseRow header fields = some (.error ()) →
      (runImport db ⟨header, pre ++ CsvLine.row fields :: suf⟩).final = failStatus ∧
      (runImport db ⟨header, pre ++ CsvLine.row fields :: suf⟩).processed =
        (rowPlanAux header pre []).1.length) := by
  refine ⟨?_, ?_, ?_, ?_⟩
  · intro header fields prod hpr hp
    rw [parseRow] at hpr
    split at hpr
    · cases hpr
    · split at hpr
      · cases hpr
      · rcases hp with hp | hp
        · rw [hp] at hpr
          simp at hpr
          rw [← hpr]
        · rw [hp] at hpr
          have he : ("" : String).isEmpty = true := rfl
          simp [he] at hpr
          rw [← hpr]
  · intro s c hc halpha
    exact pyFloat_none_of_badchar hc halpha
  · intro header fields s ps hsku hs hps hpse hpf
    have hany : (rowValues header fields).any truthy = true := by
      rcases skuCell_cases hsku with hg | hg
      · exact rowValues_any_of_col hg hs
      · exact rowValues_any_of_col hg hs
    simp [parseRow, hsku, hany, truthy, hs, hps, hpse, hpf]
  · intro db header pre suf fields hpre hprf
    have hsim := runLines_sim header (pre ++ CsvLine.row fields :: suf).length db
      pre [] (initState db) ⟨rfl, rfl, rfl⟩
    rcases hpl : runLines header (pre ++ CsvLine.row fields :: suf).length pre
      (initState db) with ⟨st1, b1⟩
    rw [hpl] at hsim
    dsimp only at hsim
    obtain ⟨⟨hses, hcom, hproc⟩, hflag⟩ := hsim
    rw [hpre] at hflag
    subst hflag
    have happ := runLines_append header (pre ++ CsvLine.row fields :: suf).length
      pre (CsvLine.row fields :: suf) (initState db)
    rw [hpl] at happ
    dsimp only at happ
    rw [if_pos rfl] at happ
    have hrow : runLines header (pre ++ CsvLine.row fields :: suf).length
        (CsvLine.row fields :: suf) st1 = (st1, false) := by
      simp [runLines, hprf]
    rw [hrow] at happ
    constructor
    · simp only [runImport, happ]
    · simp only [runImport, happ]
      exact hproc

/-- Witness for C8: an empty price imports as null; "$9.99" fails to
parse and aborts the three-line job after one processed row. -/
theorem C8_price_absent_null_and_bad_price_aborts_witness :
    (⟨"A1", none, none, none, some true⟩ : ProductCreate).price = none ∧
    pyFloat "$9.99" = none ∧
    parseRow ["sku", "price"] ["B2", "$9.99"] = some (.error ()) ∧
    ((runImport [] ⟨["sku", "price"],
        [CsvLine.row ["A1", "1.50"], CsvLine.row ["B2", "$9.99"],
         CsvLine.row ["C3", "2"]]⟩).final = failStatus ∧
      (runImport [] ⟨["sku", "price"],
        [CsvLine.row ["A1", "1.50"], CsvLine.row ["B2", "$9.99"],
         CsvLine.row ["C3", "2"]]⟩).processed = 1) := by
  obtain ⟨h1, h2, h3, h4⟩ := C8_price_absent_null_and_bad_price_aborts
  have hbad : pyFloat "$9.99" = none := h2 "$9.99" '$' (by decide) (by decide)
  have hrow : parseRow ["sku", "price"] ["B2", "$9.99"] = some (.error ()) :=
    h3 ["sku", "price"] ["B2", "$9.99"] "B2" "$9.99" (by decide) (by decide)
      (by decide) (by decide) hbad
  refine ⟨?_, hbad, hrow, ?_⟩
  · exact h1 ["sku", "price"] ["A1", ""] _ (by decide) (Or.inr (by decide))
  · exact h4 [] ["sku", "price"] [CsvLine.row ["A1", "1.50"]]
      [CsvLine.row ["C3", "2"]] ["B2", "$9.99"] (by decide) hrow

/-! ### The upsert pair and the storage invariant -/

/-- C1 (amended): for two upserts whose skus agree after lowercasing
alone (the engine applies no trim), starting from a table without that
key, exactly one row for the key results; its stored `sku` keeps the
FIRST write's casing while `name`, `description`, `price`, `active`
come from the second write. -/
theorem C1_upsert_conflict_keeps_first_casing (db : DB) (p1 p2 : ProductCreate)
    (hlow : pyLower p1.sku = pyLower p2.sku)
    (hfresh : pyLower p1.sku ∉ keys db) :
    upsert_product (upsert_product db p1) p2 =
      db ++ [⟨p1.sku, pyLower p1.sku, p2.name, p2.description, p2.price,
              some (p2.active.getD true)⟩] ∧
    (upsert_product (upsert_product db p1) p2).countP
        (fun r => r.sku_lower == pyLower p1.sku) = 1 := by
  have h1 := keys_upsert_of_not_mem hfresh
  have hany : (upsert_product db p1).any
      (fun r => r.sku_lower == pyLower p2.sku) = true := by
    rw [h1]
    refine (any_key_iff _ _).2 ?_
    rw [← hlow]
    simp [keys]
  have hne : ∀ r ∈ db, upsertApply p2 r = r := by
    intro r hr
    rw [upsertApply, if_neg ?_]
    intro hbeq
    refine hfresh ?_
    rw [hlow, ← beq_iff_eq.1 hbeq]
    exact List.mem_map.2 ⟨r, hr, rfl⟩
  have hmain : upsert_product (upsert_product db p1) p2 =
      db ++ [⟨p1.sku, pyLower p1.sku, p2.name, p2.description, p2.price,
              some (p2.active.getD true)⟩] := by
    rw [upsert_product, if_pos hany, h1, List.map_append]
    congr 1
    · calc db.map (upsertApply p2) = db.map id := List.map_congr_left hne
        _ = db := List.map_id db
    · have hb : ((⟨p1.sku, pyLower p1.sku, p1.name, p1.description, p1.price,
          some (p1.active.getD true)⟩ : Product).sku_lower
            == pyLower p2.sku) = true := by
        rw [beq_iff_eq]
        exact hlow
      simp [upsertApply, hb]
  refine ⟨hmain, ?_⟩
  rw [hmain, List.countP_append]
  have hzero : db.countP (fun r => r.sku_lower == pyLower p1.sku) = 0 := by
    rw [List.countP_eq_zero]
    intro r hr hbeq
    refine hfresh ?_
    rw [← beq_iff_eq.1 hbeq]
    exact List.mem_map.2 ⟨r, hr, rfl⟩
  rw [hzero, List.countP_cons, List.countP_nil]
  simp

/-- Witness for C1 (amended) at skus "A" and "a" on the empty table. -/
theorem C1_upsert_conflict_keeps_first_casing_witness :
    upsert_product (upsert_product [] ⟨"A", some "first", none, none, some true⟩)
        ⟨"a", some "second", none, none, some true⟩ =
      [⟨"A", "a", some "second", none, none, some true⟩] ∧
    (upsert_product (upsert_product [] ⟨"A", some "first", none, none, some true⟩)
        ⟨"a", some "second", none, none, some true⟩).countP
      (fun r => r.sku_lower == "a") = 1 :=
  C1_upsert_conflict_keeps_first_casing [] ⟨"A", some "first", none, none, some true⟩
    ⟨"a", some "second", none, none, some true⟩ (by decide) (by decide)

theorem wellFormed_append (db : DB) (r : Product) (h : WellFormed db)
    (hr : r.sku_lower = pyLower r.sku) (hk : r.sku_lower ∉ keys db) :
    WellFormed (db ++ [r]) := by
  obtain ⟨hwf, hdk⟩ := h
  constructor
  · intro x hx
    rcases List.mem_append.1 hx with hx | hx
    · exact hwf x hx
    · rcases List.mem_singleton.1 hx with rfl; exact hr
  · rw [DistinctKeys, List.pairwise_append]
    refine ⟨hdk, List.pairwise_singleton _ _, ?_⟩
    intro a ha b hb
    rcases List.mem_singleton.1 hb with rfl
    intro heq
    exact hk (heq ▸ List.mem_map.2 ⟨a, ha, rfl⟩)

theorem wellFormed_upsert (p : ProductCreate) {db : DB} (h : WellFormed db) :
    WellFormed (upsert_product db p) := by
  by_cases hm : pyLower p.sku ∈ keys db
  · have hany := (any_key_iff db _).2 hm
    obtain ⟨hwf, hdk⟩ := h
    constructor
    · intro x hx
      simp only [upsert_product, hany, if_true, List.mem_map] at hx
      obtain ⟨y, hy, rfl⟩ := hx
      rw [upsertApply_sku_lower, upsertApply_sku]
      exact hwf y hy
    · simp only [DistinctKeys, upsert_product, hany, if_true]
      rw [List.pairwise_map]
      refine List.Pairwise.imp ?_ hdk
      intro a b hab
      rw [upsertApply_sku_lower, upsertApply_sku_lower]
      exact hab
  · rw [keys_upsert_of_not_mem hm]
    exact wellFormed_append db _ h rfl hm

theorem wellFormed_create {db db' : DB} (p : ProductCreate) (h : WellFormed db)
    (hc : create_product db p = .ok db') : WellFormed db' := by
  rw [create_product] at hc
  split at hc
  · cases hc
  · next hany =>
    injection hc with hc
    subst hc
    refine wellFormed_append db _ h rfl ?_
    intro hk
    exact hany ((any_key_iff db _).2 hk)

theorem updateFirst_spec :
    ∀ (db : DB) (sku : String) (p : ProductIn) (db' : DB),
      updateFirst db sku p = some db' →
      ∃ l₁ r l₂, db = l₁ ++ r :: l₂ ∧ db' = l₁ ++ applyIn r p :: l₂ ∧
        r.sku = sku := by
  intro db
  induction db with
  | nil => intro _ _ _ h; cases h
  | cons x rest ih =>
    intro sku p db' h
    rw [updateFirst] at h
    by_cases hx : x.sku = sku
    · rw [if_pos hx] at h
      injection h with h
      exact ⟨[], x, rest, rfl, h.symm, hx⟩
    · rw [if_neg hx] at h
      rcases ho : updateFirst rest sku p with _ | db''
      · rw [ho] at h; cases h
      · rw [ho] at h
        have h2 : x :: db'' = db' := by simpa using h
        obtain ⟨l₁, r, l₂, hdb, hdb', hsku⟩ := ih sku p db'' ho
        refine ⟨x :: l₁, r, l₂, ?_, ?_, hsku⟩
        · rw [hdb]; rfl
        · rw [← h2, hdb']; rfl

theorem wellFormed_update {db db' : DB} (sku : String) (p : ProductIn)
    (h : WellFormed db) (hu : update_product db sku p = .ok db') :
    WellFormed db' := by
  rw [update_product] at hu
  rcases ho : updateFirst db sku p with _ | d
  · rw [ho] at hu; cases hu
  · rw [ho] at hu
    dsimp only at hu
    split at hu
    · cases hu
    · next hcount =>
      injection hu with hu
      subst hu
      obtain ⟨l₁, r, l₂, hdb, hd, _⟩ := updateFirst_spec db sku p d ho
      subst hd
      subst hdb
      obtain ⟨hwf, hdk⟩ := h
      have hnew : (applyIn r p).sku_lower = pyLower p.sku := rfl
      have hothers : ∀ x, x ∈ l₁ ∨ x ∈ l₂ → x.sku_lower ≠ pyLower p.sku := by
        intro x hx hxe
        refine hcount ?_
        have hxmem : x ∈ l₁ ++ applyIn r p :: l₂ := by
          rcases hx with hx | hx
          · exact List.mem_append_left _ hx
          · exact List.mem_append_right _ (List.mem_cons_of_mem _ hx)
        have hc1 : 0 < (l₁ ++ l₂).countP
            (fun y => y.sku_lower == pyLower p.sku) := by
          rw [List.countP_pos_iff]
          refine ⟨x, ?_, by rw [beq_iff_eq]; exact hxe⟩
          rcases hx with hx | hx
          · exact List.mem_append_left _ hx
          · exact List.mem_append_right _ hx
        have hb : ((applyIn r p).sku_lower == pyLower p.sku) = true := by
          rw [beq_iff_eq]; exact hnew
        have hsplit : (l₁ ++ applyIn r p :: l₂).countP
            (fun y => y.sku_lower == pyLower p.sku) =
            (l₁ ++ l₂).countP (fun y => y.sku_lower == pyLower p.sku) + 1 := by
          simp [List.countP_append, List.countP_cons, hb]
          omega
        omega
      constructor
      · intro x hx
        rcases List.mem_append.1 hx with hx | hx
        · exact hwf x (List.mem_append_left _ hx)
        · rcases List.mem_cons.1 hx with rfl | hx
          · rfl
          · exact hwf x (List.mem_append_right _ (List.mem_cons_of_mem _ hx))
      · have hdk' := hdk
        rw [DistinctKeys, List.pairwise_append, List.pairwise_cons] at hdk'
        obtain ⟨hp1, ⟨hp2r, hp2⟩, hp3⟩ := hdk'
        rw [DistinctKeys, List.pairwise_append, List.pairwise_cons]
        refine ⟨hp1, ⟨?_, hp2⟩, ?_⟩
        · intro b hb
          intro he
          exact hothers b (Or.inr hb) (by rw [← he]; exact hnew.symm) |>.elim
        · intro a ha b hb
          rcases List.mem_cons.1 hb with rfl | hb
          · intro he
            exact hothers a (Or.inl ha) (by rw [he]; exact hnew) |>.elim
          · exact hp3 a ha b (List.mem_cons_of_mem _ hb)

theorem reachable_wellFormed : ∀ {db : DB}, Reachable db → WellFormed db := by
  intro db h
  induction h with
  | empty => exact ⟨fun r hr => absurd hr (List.not_mem_nil r), List.Pairwise.nil⟩
  | create p _ hc ih => exact wellFormed_create p ih hc
  | update sku p _ hu ih => exact wellFormed_update sku p ih hu
  | upsert p _ ih => exact wellFormed_upsert p ih

/-- C2: in every storage state reachable through the public write
operations (direct create, partial update, import upsert), the
`sku_lower` values of the stored rows are pairwise distinct — each
operation either preserves the key set or adds a fresh key, and the
unique index rejects the colliding commits. -/
theorem C2_reachable_distinct_sku_lower {db : DB} (h : Reachable db) :
    DistinctKeys db :=
  (reachable_wellFormed h).2

/-- Witness for C2 on the state reached by a create followed by an
upsert of a different key. -/
theorem C2_reachable_distinct_sku_lower_witness :
    DistinctKeys
      [⟨"A1", "a1", none, none, none, some true⟩,
       ⟨"B2", "b2", some "w", none, none, some true⟩] := by
  have hre : Reachable [⟨"A1", "a1", none, none, none, some true⟩,
      ⟨"B2", "b2", some "w", none, none, some true⟩] := by
    have h1 : Reachable [⟨"A1", "a1", none, none, none, some true⟩] :=
      Reachable.create ⟨"A1", none, none, none, some true⟩ Reachable.empty
        (by decide)
    have h2 := Reachable.upsert ⟨"B2", some "w", none, none, some true⟩ h1
    have he : upsert_product [⟨"A1", "a1", none, none, none, some true⟩]
        ⟨"B2", some "w", none, none, some true⟩ =
        [⟨"A1", "a1", none, none, none, some true⟩,
         ⟨"B2", "b2", some "w", none, none, some true⟩] := by decide
    rw [he] at h2
    exact h2
  exact C2_reachable_distinct_sku_lower hre

/-! ### Exact-match lookup of the single-product endpoints -/

theorem updateFirst_eq_none {s : String} (p : ProductIn) :
    ∀ (db : DB), (∀ q ∈ db, q.sku ≠ s) → updateFirst db s p = none := by
  intro db
  induction db with
  | nil => intro _; rfl
  | cons x rest ih =>
    intro hq
    rw [updateFirst, if_neg (hq x (List.mem_cons_self x rest)),
      ih fun q hqr => hq q (List.mem_cons_of_mem x hqr)]
    rfl

/-- C10 (amended): PUT /products/\x7bsku\x7d and DELETE /products/\x7bsku\x7d
locate the row by exact, case-sensitive equality with the stored `sku`.
Under the storage invariant, a path sku that differs from a stored
product's sku only in letter casing matches no row, so both endpoints
return 404 and perform no mutation.  (For a sku differing in surrounding
whitespace this holds only when no other stored row carries exactly that
string — see the counterexample.) -/
theorem C10_casing_mismatch_404 (db : DB) (s : String) (r : Product)
    (p : ProductIn) (hwf : WellFormed db) (hr : r ∈ db)
    (hlow : pyLower s = pyLower r.sku) (hne : s ≠ r.sku) :
    update_product db s p = .error 404 ∧
    delete_product_by_sku db s = .error 404 := by
  have hnone : ∀ q ∈ db, q.sku ≠ s := by
    intro q hq hqs
    have h1 : q.sku_lower = pyLower s := by rw [hwf.1 q hq, hqs]
    have h2 : r.sku_lower = pyLower r.sku := hwf.1 r hr
    have heq : q.sku_lower = r.sku_lower := by rw [h1, hlow, h2]
    by_cases hqr : q = r
    · subst hqr
      exact hne hqs.symm
    · exact List.Pairwise.forall (fun _ _ hab => Ne.symm hab) hwf.2 hq hr hqr heq
  constructor
  · rw [update_product, updateFirst_eq_none p db hnone]
  · have hfind : db.findIdx? (fun q => q.sku == s) = none := by
      refine List.findIdx?_eq_none_iff.2 ?_
      intro q hq
      exact beq_eq_false_iff_ne.2 (hnone q hq)
    rw [delete_product_by_sku, hfind]

/-- Witness for C10 (amended): a table holding only sku "ABC", requested
with "abc". -/
theorem C10_casing_mismatch_404_witness :
    update_product [⟨"ABC", "abc", none, none, none, some true⟩] "abc"
        ⟨"X", none, none, none, none⟩ = .error 404 ∧
    delete_product_by_sku [⟨"ABC", "abc", none, none, none, some true⟩] "abc"
      = .error 404 :=
  C10_casing_mismatch_404 [⟨"ABC", "abc", none, none, none, some true⟩] "abc"
    ⟨"ABC", "abc", none, none, none, some true⟩ ⟨"X", none, none, none, none⟩
    ⟨by decide, List.pairwise_singleton _ _⟩ (by decide) (by decide) (by decide)

end Backend
